import Mathlib

/-!
Verification of the updatewatch core (updatewatch/updatewatch.py): the
result normalizer `make_result`, the diff engine `difference`, the
fingerprint helpers `hashablize` / `get_hash`, and the command wrapping
performed by `execute`.  Python strings are modelled as Lean `String`
(lists of unicode characters), Python `set` as `Finset String`, dicts of
the fixed Result shape as a Lean structure, and a raised exception as
`Option.none` of an `Option`-valued function.
-/

namespace Updatewatch

/-- Python whitespace characters, as recognised by `str.strip()` and
`str.split()`: space, tab, newline, carriage return, vertical tab, form feed. -/
def isPySpace (c : Char) : Bool :=
  c = ' ' || c = '\t' || c = '\n' || c = '\r' || c = Char.ofNat 11 || c = Char.ofNat 12

/-- Python `str.strip()` on a character list: drop whitespace from both ends. -/
def pyStrip (cs : List Char) : List Char :=
  ((cs.dropWhile isPySpace).reverse.dropWhile isPySpace).reverse

/-- Core of Python `str.splitlines()`: split at line boundaries
(`\r\n`, `\r`, `\n`); the trailing segment is emitted only when non-empty
(so a trailing newline produces no empty final line, matching Python). -/
def splitLinesCore : List Char → List Char → List (List Char)
  | [], acc => if acc.isEmpty then [] else [acc.reverse]
  | '\r' :: '\n' :: rest, acc => acc.reverse :: splitLinesCore rest []
  | '\r' :: rest, acc => acc.reverse :: splitLinesCore rest []
  | '\n' :: rest, acc => acc.reverse :: splitLinesCore rest []
  | c :: rest, acc => splitLinesCore rest (c :: acc)

/-- Python `text.strip().splitlines()`, as used on both captured streams in
`make_result` (updatewatch.py lines 393-394). -/
def stripSplitlines (s : String) : List String :=
  (splitLinesCore (pyStrip s.toList) []).map String.mk

/-- Core of Python `str.split()` with no separator: fields are maximal runs
of non-whitespace; no empty fields are produced. -/
def splitWsCore : List Char → List Char → List (List Char)
  | [], acc => if acc.isEmpty then [] else [acc.reverse]
  | c :: rest, acc =>
    if isPySpace c then
      if acc.isEmpty then splitWsCore rest [] else acc.reverse :: splitWsCore rest []
    else splitWsCore rest (c :: acc)

/-- Python `str.split()` (whitespace-separated fields). -/
def pySplitWs (s : String) : List String :=
  (splitWsCore s.toList []).map String.mk

/-- `reporters.Terminal.clean`, i.e. `re.sub(r'\x1b[^m]*m', '', msg)`:
a scan that, on each ESC character, discards everything up to and including
the next `m`; an ESC never followed by an `m` is kept verbatim (the regex
cannot match there, and nothing after it can match either since no `m`
remains).  `pending` buffers a candidate match in reverse. -/
def cleanAux : List Char → List Char → List Char
  | [], pending => pending.reverse
  | c :: rest, pending =>
    match pending with
    | [] => if c = '\x1b' then cleanAux rest [c] else c :: cleanAux rest []
    | _ => if c = 'm' then cleanAux rest [] else cleanAux rest (c :: pending)

/-- `reporters.Terminal.clean` on a string. -/
def terminalClean (s : String) : String :=
  String.mk (cleanAux s.toList [])

/-- Numeric value of a digit run. -/
def digitsToNat (ds : List Char) : Nat :=
  ds.foldl (fun n c => 10 * n + (c.toNat - '0'.toNat)) 0

/-- A parsed `distutils.version.StrictVersion`: `major.minor[.patch][(a|b)N]`,
patch defaulting to 0, with an optional prerelease tag. -/
structure StrictV where
  major : Nat
  minor : Nat
  patch : Nat
  pre : Option (Char × Nat)
deriving DecidableEq

/-- `StrictVersion.parse`: match `^(\d+)\.(\d+)(\.(\d+))?([ab](\d+))?$`;
`none` models the `ValueError` raised on a non-matching version string. -/
def parseStrictVersion (s : String) : Option StrictV :=
  let cs := s.toList
  let d1 := cs.takeWhile Char.isDigit
  if d1.isEmpty then none else
  match cs.dropWhile Char.isDigit with
  | '.' :: r2 =>
    let d2 := r2.takeWhile Char.isDigit
    if d2.isEmpty then none else
    let r3 := r2.dropWhile Char.isDigit
    let pr :=
      match r3 with
      | '.' :: r4 =>
        let d3 := r4.takeWhile Char.isDigit
        if d3.isEmpty then (0, r3) else (digitsToNat d3, r4.dropWhile Char.isDigit)
      | _ => (0, r3)
    match pr.2 with
    | [] => some ⟨digitsToNat d1, digitsToNat d2, pr.1, none⟩
    | a :: r6 =>
      if a = 'a' || a = 'b' then
        let d4 := r6.takeWhile Char.isDigit
        if d4.isEmpty then none
        else if (r6.dropWhile Char.isDigit).isEmpty then
          some ⟨digitsToNat d1, digitsToNat d2, pr.1, some (a, digitsToNat d4)⟩
        else none
      else none
  | _ => none

/-- `StrictVersion.__lt__`: compare `(major, minor, patch)` lexicographically;
on a tie, a prerelease sorts below no prerelease, and two prereleases compare
as `(letter, number)` pairs. -/
def svLT (x y : StrictV) : Bool :=
  if x.major ≠ y.major then decide (x.major < y.major)
  else if x.minor ≠ y.minor then decide (x.minor < y.minor)
  else if x.patch ≠ y.patch then decide (x.patch < y.patch)
  else
    match x.pre, y.pre with
    | none, none => false
    | some _, none => true
    | none, some _ => false
    | some (c1, n1), some (c2, n2) =>
      if c1 ≠ c2 then decide (c1 < c2) else decide (n1 < n2)

/-- The Result record produced by `make_result` / `make_default`: a Python
dict with the six fixed keys `description`, `header`, `new`, `status`,
`stderr`, `stdout`.  The Python set `new` is modelled as a `Finset String`. -/
structure Result where
  description : String
  header : Option String
  new : Finset String
  status : Int
  stderr : List String
  stdout : List String
deriving DecidableEq

/-- `make_default` (updatewatch.py lines 317-327). -/
def make_default : Result :=
  { description := ""
    header := none
    new := ∅
    status := 0
    stderr := []
    stdout := [] }

/-- The synthetic stderr line appended on exit status 124. -/
def timeoutSentinel : String := "ERROR: command timed out"

/-- For one Node.js data row: `Terminal.clean` it, split it on whitespace,
unpack exactly four fields `_, current, wanted, _`, and parse the two middle
fields as strict versions.  `none` models the `ValueError`
raised when the row does not have exactly four fields or a version string
does not parse (updatewatch.py lines 414-419). -/
def rowVersions (row : String) : Option (StrictV × StrictV) :=
  match pySplitWs (terminalClean row) with
  | [_, current, wanted, _] =>
    match parseStrictVersion current, parseStrictVersion wanted with
    | some v1, some v2 => some (v1, v2)
    | _, _ => none
  | _ => none

/-- The `for module_line in all_module_lines` loop of `make_result`: keep a
row exactly when `StrictVersion(current) < StrictVersion(wanted)`; any row
that fails to unpack or parse raises, aborting the whole call (`none`). -/
def processRows : List String → Option (List String)
  | [] => some []
  | row :: rows =>
    match rowVersions row with
    | some (v1, v2) => (processRows rows).map (fun ms => if svLT v1 v2 then row :: ms else ms)
    | none => none

/-- `make_result` (updatewatch.py lines 389-432): strip-and-split both
streams, append the timeout sentinel to stderr when `status == 124`, and for
the `'Node.js modules'` check with non-empty stdout hoist the first line
into `header` (only when there are at least two lines) and keep only the
genuinely outdated rows.  `none` models an uncaught exception from row
processing. -/
def make_result (description stdoutText stderrText : String) (status : Int) :
    Option Result :=
  let stderrL0 := stripSplitlines stderrText
  let stdoutL := stripSplitlines stdoutText
  let stderrL := if status = 124 then stderrL0 ++ [timeoutSentinel] else stderrL0
  if description = "Node.js modules" ∧ stdoutL ≠ [] then
    match stdoutL with
    | [] => none
    | firstLine :: restRows =>
      if restRows.isEmpty then
        some { description := description, header := none, new := ∅,
               status := status, stderr := stderrL, stdout := [] }
      else
        match processRows restRows with
        | some modules =>
          some { description := description, header := some firstLine, new := ∅,
                 status := status, stderr := stderrL, stdout := modules }
        | none => none
  else
    some { description := description, header := none, new := ∅,
           status := status, stderr := stderrL, stdout := stdoutL }

/-- One position of the `difference` loop (updatewatch.py lines 84-104):
compute `new = set(current['stdout']) - set(previous['stdout'])`; keep the
current record with `new` attached when `new` is truthy or
`current['stderr']` is falsy, otherwise fall back to the previous record
with its description refreshed and its `new` wiped. -/
def diffStep (current previous : Result) : Result :=
  let nw := current.stdout.toFinset \ previous.stdout.toFinset
  if nw ≠ ∅ ∨ current.stderr = [] then
    { current with new := nw }
  else
    { previous with description := current.description, new := ∅ }

/-- `difference` (updatewatch.py lines 74-106): `itertools.zip_longest`
pairs the two lists; a missing previous record is replaced by
`make_default()`, while a missing current record is `None` and
`current['description']` raises `TypeError` — modelled as `none`. -/
def difference : List Result → List Result → Option (List Result)
  | [], [] => some []
  | [], _ :: _ => none
  | c :: cs, [] => (difference cs []).map (fun ds => diffStep c make_default :: ds)
  | c :: cs, p :: ps => (difference cs ps).map (fun ds => diffStep c p :: ds)

/-- The command wrapping in `execute` (updatewatch.py line 170):
`'timeout 3m %s' % command`, with the 3-minute limit hardcoded. -/
def executeCommandLine (command : String) : String :=
  "timeout 3m " ++ command

/-- Model of calling `execute(**u)` for an update entry `u` (updatewatch.py
line 65 and the signature `def execute(description, command)` at line 145):
the call binds exactly the keywords `description` and `command`; any other
key (for example `timeout`) raises `TypeError`, modelled as `none`.  On
success it returns the bound description and the wrapped command line. -/
def callExecute (kwargs : List (String × String)) : Option (String × String) :=
  match kwargs.lookup "description", kwargs.lookup "command" with
  | some d, some c =>
    if kwargs.all (fun kv => kv.1 = "description" ∨ kv.1 = "command") then
      some (d, executeCommandLine c)
    else none
  | _, _ => none

/-- A Python value as found in the parsed updates YAML: strings, integers,
lists and string-keyed dicts.  Strings and integers are hashable; lists and
dicts are not (`hash(obj)` raises `TypeError` on them). -/
inductive PyObj where
  | str : String → PyObj
  | int : Int → PyObj
  | list : List PyObj → PyObj
  | dict : List (String × PyObj) → PyObj

/-- A hashable Python value: what `hashablize` returns — the primitives
unchanged, and tuples for converted containers. -/
inductive HObj where
  | str : String → HObj
  | int : Int → HObj
  | tup : List HObj → HObj

/-- Insert a key-value pair into a list sorted by key (keys compared as
Python compares strings, lexicographically by code point). -/
def insortPair (p : String × HObj) : List (String × HObj) → List (String × HObj)
  | [] => [p]
  | q :: qs => if p.1 ≤ q.1 then p :: q :: qs else q :: insortPair p qs

/-- `sorted(obj.items())` as used by `hashablize` on a dict: sort the items
by key.  Dict items always have pairwise distinct keys, so the sort order
is fully determined by the keys alone. -/
def sortPairs : List (String × HObj) → List (String × HObj)
  | [] => []
  | p :: ps => insortPair p (sortPairs ps)

/-- `hashablize` (updatewatch.py lines 225-257): hashable values (strings,
ints) are returned unchanged; a dict becomes the tuple of its
`(key, hashablize(value))` items sorted by key; any other iterable (a list)
becomes the tuple of its hashablized elements in order. -/
def hashablize : PyObj → HObj
  | .str s => .str s
  | .int n => .int n
  | .list xs => .tup (xs.attach.map fun x => hashablize x.1)
  | .dict es =>
    .tup ((sortPairs (es.attach.map fun kv => (kv.1.1, hashablize kv.1.2))).map
      (fun p => HObj.tup [.str p.1, p.2]))
decreasing_by
  · have := List.sizeOf_lt_of_mem x.2
    simp at this ⊢
    omega
  · obtain ⟨⟨a, b⟩, hmem⟩ := kv
    have := List.sizeOf_lt_of_mem hmem
    simp at this ⊢
    omega

/-- A stable unambiguous serialization of a hashable value, standing in for
`pickle.dumps`: the digest of `get_hash` depends on the input only through
this serialization of the canonical form. -/
def serializeH : HObj → String
  | .str s => "s" ++ toString s.length ++ ":" ++ s
  | .int n => "i" ++ toString n ++ ";"
  | .tup xs => "t(" ++ String.join (xs.attach.map fun x => serializeH x.1) ++ ")"
decreasing_by
  have := List.sizeOf_lt_of_mem x.2
  simp at this ⊢
  omega

/-- `get_hash` (updatewatch.py lines 208-216):
`sha1(pickle.dumps(hashablize(item))).hexdigest()`.  The pickling and SHA-1
steps are library functions of the serialized canonical form; the digest is
modelled as the stable serialization itself, which preserves exactly the
dependence of the real digest on the input: equal canonical forms give equal
digests, and distinct canonical forms give distinct digests absent SHA-1
collisions. -/
def get_hash (item : PyObj) : String :=
  serializeH (hashablize item)

/-- A row is kept by the Node.js post-processing loop exactly when it
parses and its current version is strictly below its wanted version. -/
def rowOutdated (row : String) : Bool :=
  match rowVersions row with
  | some (v1, v2) => svLT v1 v2
  | none => false

end Updatewatch

namespace Updatewatch

/-! Helper lemmas about the diff engine. -/

theorem difference_nil_left (prev : List Result) (hp : prev ≠ []) :
    difference [] prev = none := by
  cases prev with
  | nil => exact absurd rfl hp
  | cons p ps => rfl

theorem difference_cons_cons (c p : Result) (cs ps : List Result) :
    difference (c :: cs) (p :: ps) =
      (difference cs ps).map (fun ds => diffStep c p :: ds) := rfl

theorem difference_cons_nil (c : Result) (cs : List Result) :
    difference (c :: cs) [] =
      (difference cs []).map (fun ds => diffStep c make_default :: ds) := rfl

theorem diffStep_keep (c p : Result)
    (h : c.stdout.toFinset \ p.stdout.toFinset ≠ ∅ ∨ c.stderr = []) :
    diffStep c p = { c with new := c.stdout.toFinset \ p.stdout.toFinset } := by
  simp only [diffStep]
  rw [if_pos h]

theorem diffStep_fallback (c p : Result)
    (h1 : c.stdout.toFinset \ p.stdout.toFinset = ∅) (h2 : c.stderr ≠ []) :
    diffStep c p = { p with description := c.description, new := ∅ } := by
  simp only [diffStep]
  rw [if_neg]
  push_neg
  exact ⟨h1, h2⟩

/-- Claim C10: when the cached previous list is strictly longer than the
current list, `difference` fails (the `TypeError` on subscripting the
missing current record), while a previous list no longer than the current
one always produces a result list (a missing previous record is defaulted
to `make_default`, a missing current record is not defaulted at all). -/
theorem C10_excess_previous_fails (cur prev : List Result) :
    (cur.length < prev.length → difference cur prev = none) ∧
    (prev.length ≤ cur.length → (difference cur prev).isSome) := by
  induction cur generalizing prev with
  | nil =>
    cases prev with
    | nil => exact ⟨fun h => absurd h (by simp), fun _ => rfl⟩
    | cons p ps =>
      refine ⟨fun _ => rfl, fun h => absurd h ?_⟩
      simp
  | cons c cs ih =>
    cases prev with
    | nil =>
      refine ⟨fun h => absurd h (by simp), fun _ => ?_⟩
      rw [difference_cons_nil]
      rcases Option.isSome_iff_exists.mp ((ih []).2 (by simp)) with ⟨ds, hds⟩
      simp [hds]
    | cons p ps =>
      constructor
      · intro h
        rw [difference_cons_cons, (ih ps).1 (by simpa using h)]
        rfl
      · intro h
        rw [difference_cons_cons]
        rcases Option.isSome_iff_exists.mp ((ih ps).2 (by simpa using h)) with ⟨ds, hds⟩
        simp [hds]

/-- Witness for C10 at concrete inputs: a one-element previous list against
an empty current list fails, and the reverse succeeds. -/
theorem C10_excess_previous_fails_witness :
    difference [] [make_default] = none ∧ (difference [make_default] []).isSome :=
  ⟨(C10_excess_previous_fails [] [make_default]).1 (by decide),
    (C10_excess_previous_fails [make_default] []).2 (by decide)⟩

/-- Claim C1, counterexample: a current record with empty stderr, exit
status 3 and no new items is kept as the fresh record (the code tests only
`current['stderr']`, never `status`), it does not fall back to the previous
record as the claim requires. -/
theorem C1_counterexample :
    difference [⟨"d", none, ∅, 3, [], []⟩] [⟨"d", none, ∅, 0, [], ["a"]⟩] =
      some [⟨"d", none, ∅, 3, [], []⟩] ∧
    (⟨"d", none, ∅, 3, [], []⟩ : Result) ≠ ⟨"d", none, ∅, 0, [], ["a"]⟩ := by
  constructor
  · rfl
  · decide

/-- Claim C1 as amended: at every position the fresh record `current[i]`
(with the computed `new` attached) is kept if and only if `new` is
non-empty or `current[i].stderr` is empty; the exit status is not consulted
at all, so a record with empty stderr and non-zero status is kept even
without new items. -/
theorem C1_keep_condition (c p : Result) (cs ps : List Result) (out : List Result)
    (h : difference (c :: cs) (p :: ps) = some out) :
    ∃ rest, out = diffStep c p :: rest ∧
      ((c.stdout.toFinset \ p.stdout.toFinset ≠ ∅ ∨ c.stderr = []) →
        diffStep c p = { c with new := c.stdout.toFinset \ p.stdout.toFinset }) ∧
      ((c.stdout.toFinset \ p.stdout.toFinset = ∅ ∧ c.stderr ≠ []) →
        diffStep c p = { p with description := c.description, new := ∅ }) := by
  rw [difference_cons_cons] at h
  rcases Option.map_eq_some'.mp h with ⟨ds, _, hmap⟩
  exact ⟨ds, hmap.symm, fun hk => diffStep_keep c p hk,
    fun hf => diffStep_fallback c p hf.1 hf.2⟩

/-- Witness for C1 at a concrete input: status 3, empty stderr, no new
items; the kept head record is the fresh current one. -/
theorem C1_keep_condition_witness :
    difference [(⟨"d", none, ∅, 3, [], []⟩ : Result)] [⟨"d", none, ∅, 0, [], ["a"]⟩] =
      some [⟨"d", none, ∅, 3, [], []⟩] ∧
    ∃ rest, [(⟨"d", none, ∅, 3, [], []⟩ : Result)] =
        diffStep ⟨"d", none, ∅, 3, [], []⟩ ⟨"d", none, ∅, 0, [], ["a"]⟩ :: rest ∧
      (((⟨"d", none, ∅, 3, [], []⟩ : Result).stdout.toFinset \
          (⟨"d", none, ∅, 0, [], ["a"]⟩ : Result).stdout.toFinset ≠ ∅ ∨
        (⟨"d", none, ∅, 3, [], []⟩ : Result).stderr = []) →
        diffStep ⟨"d", none, ∅, 3, [], []⟩ ⟨"d", none, ∅, 0, [], ["a"]⟩ =
          { (⟨"d", none, ∅, 3, [], []⟩ : Result) with
              new := (⟨"d", none, ∅, 3, [], []⟩ : Result).stdout.toFinset \
                (⟨"d", none, ∅, 0, [], ["a"]⟩ : Result).stdout.toFinset }) ∧
      (((⟨"d", none, ∅, 3, [], []⟩ : Result).stdout.toFinset \
          (⟨"d", none, ∅, 0, [], ["a"]⟩ : Result).stdout.toFinset = ∅ ∧
        (⟨"d", none, ∅, 3, [], []⟩ : Result).stderr ≠ []) →
        diffStep ⟨"d", none, ∅, 3, [], []⟩ ⟨"d", none, ∅, 0, [], ["a"]⟩ =
          { (⟨"d", none, ∅, 0, [], ["a"]⟩ : Result) with
              description := (⟨"d", none, ∅, 3, [], []⟩ : Result).description,
              new := ∅ }) :=
  ⟨rfl, C1_keep_condition _ _ [] [] _ rfl⟩


/-- Claim C2, counterexample: on a cold cache, a Result with empty stdout
and non-empty stderr is not returned with `new = set(its stdout)`; the
fallback branch replaces it by the default record carrying only its
description. -/
theorem C2_counterexample :
    difference [⟨"d", none, ∅, 1, ["boom"], []⟩] [] =
      some [⟨"d", none, ∅, 0, [], []⟩] ∧
    (⟨"d", none, ∅, 0, [], []⟩ : Result) ≠
      { (⟨"d", none, ∅, 1, ["boom"], []⟩ : Result) with
          new := (⟨"d", none, ∅, 1, ["boom"], []⟩ : Result).stdout.toFinset } := by
  constructor
  · rfl
  · decide

/-- Claim C2 as amended: on a cold cache (`difference [r] []`), whenever
`r.stdout` is non-empty or `r.stderr` is empty, the result is exactly `[r]`
with `new = set(r.stdout)` and all other fields unchanged; otherwise the
error-fallback branch replaces `r` by the default record with `r`'s
description. -/
theorem C2_cold_cache (r : Result) (h : r.stdout ≠ [] ∨ r.stderr = []) :
    difference [r] [] = some [{ r with new := r.stdout.toFinset }] := by
  rw [difference_cons_nil]
  have hstep : diffStep r make_default = { r with new := r.stdout.toFinset } := by
    have hsd : r.stdout.toFinset \ make_default.stdout.toFinset = r.stdout.toFinset := by
      simp [make_default]
    have hcond : r.stdout.toFinset \ make_default.stdout.toFinset ≠ ∅ ∨ r.stderr = [] := by
      rcases h with h | h
      · left
        rw [hsd]
        simpa using h
      · right
        exact h
    rw [diffStep_keep r make_default hcond, hsd]
  rw [hstep]
  rfl

/-- Witness for C2 at a concrete input. -/
theorem C2_cold_cache_witness :
    ((⟨"d", none, ∅, 0, [], ["a", "b"]⟩ : Result).stdout ≠ [] ∨
      (⟨"d", none, ∅, 0, [], ["a", "b"]⟩ : Result).stderr = []) ∧
    difference [(⟨"d", none, ∅, 0, [], ["a", "b"]⟩ : Result)] [] =
      some [{ (⟨"d", none, ∅, 0, [], ["a", "b"]⟩ : Result) with
        new := (⟨"d", none, ∅, 0, [], ["a", "b"]⟩ : Result).stdout.toFinset }] :=
  ⟨by decide, C2_cold_cache _ (by decide)⟩

/-- Claim C3: whenever the fallback branch is taken at a position (the
computed new-set is empty and the current record has a non-empty stderr),
the emitted record is the previous one with exactly the description
replaced by the current description and `new` cleared to the empty set;
its stdout, stderr, status and header are the previous record's,
unchanged. -/
theorem C3_fallback_frame (c p : Result) (cs ps out : List Result)
    (h : difference (c :: cs) (p :: ps) = some out)
    (h1 : c.stdout.toFinset \ p.stdout.toFinset = ∅)
    (h2 : c.stderr ≠ []) :
    ∃ r rest, out = r :: rest ∧
      r.description = c.description ∧ r.new = ∅ ∧
      r.stdout = p.stdout ∧ r.stderr = p.stderr ∧
      r.status = p.status ∧ r.header = p.header := by
  rw [difference_cons_cons] at h
  rcases Option.map_eq_some'.mp h with ⟨ds, _, hmap⟩
  refine ⟨diffStep c p, ds, hmap.symm, ?_⟩
  rw [diffStep_fallback c p h1 h2]
  exact ⟨rfl, rfl, rfl, rfl, rfl, rfl⟩

/-- Witness for C3 at the spec's own scenario: current has empty stdout,
stderr `["boom"]`, status 1; previous holds known-good data. -/
theorem C3_fallback_frame_witness :
    difference [(⟨"d2", none, ∅, 1, ["boom"], []⟩ : Result)]
        [⟨"d1", some "h", {"a"}, 0, ["olderr"], ["a", "b"]⟩] =
      some [⟨"d2", some "h", ∅, 0, ["olderr"], ["a", "b"]⟩] ∧
    ((⟨"d2", none, ∅, 1, ["boom"], []⟩ : Result).stdout.toFinset \
      (⟨"d1", some "h", {"a"}, 0, ["olderr"], ["a", "b"]⟩ : Result).stdout.toFinset = ∅) ∧
    ((⟨"d2", none, ∅, 1, ["boom"], []⟩ : Result).stderr ≠ []) ∧
    ∃ r rest, [(⟨"d2", some "h", ∅, 0, ["olderr"], ["a", "b"]⟩ : Result)] = r :: rest ∧
      r.description = "d2" ∧ r.new = ∅ ∧
      r.stdout = ["a", "b"] ∧ r.stderr = ["olderr"] ∧
      r.status = 0 ∧ r.header = some "h" :=
  ⟨by decide, by decide, by decide,
    C3_fallback_frame ⟨"d2", none, ∅, 1, ["boom"], []⟩
      ⟨"d1", some "h", {"a"}, 0, ["olderr"], ["a", "b"]⟩ [] []
      [⟨"d2", some "h", ∅, 0, ["olderr"], ["a", "b"]⟩]
      (by decide) (by decide) (by decide)⟩

/-- Claim C4 (code bug evidence): `execute` accepts only the keywords
`description` and `command` — invoking it the way the repository's own
`test_execute_timeout` does, with a per-check `timeout` of `"0.1s"`, is a
`TypeError` — and the command wrapping hardcodes a 3-minute `timeout 3m`
for every check regardless of configuration. -/
theorem C4_no_per_check_timeout :
    callExecute [("description", "generic packages"),
      ("command", "echo output; echo error >&2; sleep 0.2"),
      ("timeout", "0.1s")] = none ∧
    callExecute [("description", "generic packages"),
      ("command", "echo output; echo error >&2; sleep 0.2")] =
      some ("generic packages", "timeout 3m echo output; echo error >&2; sleep 0.2") := by
  constructor
  · rfl
  · rfl

/-- Claim C5 (code bug evidence): in the Node.js post-processor a data row
that does not split into exactly four whitespace-separated fields makes the
whole normalization raise (modelled as `none`) instead of being silently
dropped: both a junk row and a five-field row with a location column (which
the repository's own modifier tests expect to be handled) abort the check. -/
theorem C5_malformed_row_raises :
    make_result "Node.js modules" "Package Current Wanted Latest Location\nsomejunk" "" 0 =
      none ∧
    make_result "Node.js modules"
      "Package Current Wanted Latest Location\nare-we-there-yet 1.0.6 1.1.1 1.1.1 npmlog" "" 0 =
      none := by
  constructor
  · rfl
  · rfl

/-! Helper lemmas about the normalizer. -/

theorem stderr_if_append (l0 : List String) (s : Int) :
    (if s = 124 then l0 ++ [timeoutSentinel] else l0) =
      l0 ++ (if s = 124 then [timeoutSentinel] else []) := by
  split <;> simp

/-- The branch structure of `make_result` is independent of the exit
status: for fixed texts it either always raises, or always returns a record
whose header and stdout do not depend on the status and whose stderr is the
split stderr text with the sentinel appended exactly when the status
is 124. -/
theorem make_result_shape (d outT errT : String) :
    (∀ s : Int, make_result d outT errT s = none) ∨
    (∃ hv sv, ∀ s : Int, make_result d outT errT s =
      some ⟨d, hv, ∅, s,
        stripSplitlines errT ++ (if s = 124 then [timeoutSentinel] else []), sv⟩) := by
  by_cases hd : d = "Node.js modules"
  · subst hd
    cases houtL : stripSplitlines outT with
    | nil =>
      right
      refine ⟨none, [], fun s => ?_⟩
      simp [make_result, houtL, stderr_if_append]
    | cons firstLine rest =>
      cases rest with
      | nil =>
        right
        refine ⟨none, [], fun s => ?_⟩
        simp [make_result, houtL, stderr_if_append]
      | cons r2 rs =>
        cases hpr : processRows (r2 :: rs) with
        | none =>
          left
          intro s
          simp [make_result, houtL, hpr]
        | some mods =>
          right
          refine ⟨some firstLine, mods, fun s => ?_⟩
          simp [make_result, houtL, hpr, stderr_if_append]
  · right
    refine ⟨none, stripSplitlines outT, fun s => ?_⟩
    simp [make_result, hd, stderr_if_append]

/-- Claim C6, counterexample: stdout text with an interior empty line, an
interior line with surrounding whitespace, and a repeated line is normalized
into a stdout list that keeps the blank line, the unstripped line and the
duplicate. -/
theorem C6_counterexample :
    make_result "d" "a\n\n a\na" "" 0 =
      some ⟨"d", none, ∅, 0, [], ["a", "", " a", "a"]⟩ ∧
    "" ∈ (["a", "", " a", "a"] : List String) ∧
    ¬ (["a", "", " a", "a"] : List String).Nodup := by
  refine ⟨rfl, by decide, by decide⟩

/-- Claim C6 as amended: for every check other than the Node.js one, the
normalizer's stdout and stderr are exactly the lines of the captured text
after stripping leading and trailing whitespace of the whole text only
(plus the timeout sentinel on stderr when the status is 124): interior
blank lines, per-line surrounding whitespace, and duplicate lines are all
preserved; no per-line stripping or deduplication takes place. -/
theorem C6_raw_lines (d outT errT : String) (s : Int) (hd : d ≠ "Node.js modules") :
    make_result d outT errT s =
      some ⟨d, none, ∅, s,
        stripSplitlines errT ++ (if s = 124 then [timeoutSentinel] else []),
        stripSplitlines outT⟩ := by
  simp [make_result, hd, stderr_if_append]

/-- Witness for C6 at a concrete input with an interior blank line, an
unstripped interior line and a duplicate line. -/
theorem C6_raw_lines_witness :
    ("d" : String) ≠ "Node.js modules" ∧
    make_result "d" "a\n\n a\na" "errline" 0 =
      some ⟨"d", none, ∅, 0,
        stripSplitlines "errline" ++ (if (0 : Int) = 124 then [timeoutSentinel] else []),
        stripSplitlines "a\n\n a\na"⟩ :=
  ⟨by decide, C6_raw_lines "d" "a\n\n a\na" "errline" 0 (by decide)⟩

/-- Claim C9: a produced Result's stderr is exactly the split stderr text
with the synthetic line `"ERROR: command timed out"` appended exactly once
when and only when the exit status is 124, all previously captured stderr
lines preserved before it; the status has no influence on the produced
stdout or header. -/
theorem C9_timeout_sentinel (d outT errT : String) (s : Int) (r : Result)
    (h : make_result d outT errT s = some r) :
    r.stderr = stripSplitlines errT ++ (if s = 124 then [timeoutSentinel] else []) ∧
    (∀ (s2 : Int) (r2 : Result), make_result d outT errT s2 = some r2 →
      r2.stdout = r.stdout ∧ r2.header = r.header) := by
  rcases make_result_shape d outT errT with hall | ⟨hv, sv, hsome⟩
  · rw [hall s] at h
    exact absurd h (by simp)
  · rw [hsome s] at h
    obtain rfl := (Option.some.inj h).symm
    refine ⟨rfl, fun s2 r2 h2 => ?_⟩
    rw [hsome s2] at h2
    obtain rfl := (Option.some.inj h2).symm
    exact ⟨rfl, rfl⟩

/-- Witness for C9 at a concrete timed-out input with prior stderr lines. -/
theorem C9_timeout_sentinel_witness :
    make_result "generic packages" "out" "line one\nline two" 124 =
      some ⟨"generic packages", none, ∅, 124,
        ["line one", "line two", "ERROR: command timed out"], ["out"]⟩ ∧
    (⟨"generic packages", none, ∅, 124,
        ["line one", "line two", "ERROR: command timed out"],
        ["out"]⟩ : Result).stderr =
      stripSplitlines "line one\nline two" ++
        (if (124 : Int) = 124 then [timeoutSentinel] else []) ∧
    (∀ (s2 : Int) (r2 : Result),
      make_result "generic packages" "out" "line one\nline two" s2 = some r2 →
      r2.stdout = (⟨"generic packages", none, ∅, 124,
        ["line one", "line two", "ERROR: command timed out"], ["out"]⟩ : Result).stdout ∧
      r2.header = (⟨"generic packages", none, ∅, 124,
        ["line one", "line two", "ERROR: command timed out"], ["out"]⟩ : Result).header) :=
  ⟨by decide, C9_timeout_sentinel "generic packages" "out" "line one\nline two" 124 _ (by decide)⟩

/-- When every row parses, the Node.js row loop never raises and keeps, in
their original order, exactly the rows whose current version is strictly
below their wanted version. -/
theorem processRows_eq_filter (rows : List String)
    (h : ∀ row ∈ rows, (rowVersions row).isSome) :
    processRows rows = some (rows.filter rowOutdated) := by
  induction rows with
  | nil => rfl
  | cons row rest ih =>
    rcases Option.isSome_iff_exists.mp (h row (by simp)) with ⟨⟨v1, v2⟩, hv⟩
    have hrest := ih (fun r hr => h r (by simp [hr]))
    have hout : rowOutdated row = svLT v1 v2 := by
      simp [rowOutdated, hv]
    simp only [processRows, hv, hrest, Option.map_some', List.filter_cons, hout]

/-- Claim C8: for the tabular Node.js check, when stdout splits into a
header line followed by at least one data row and every row matches the
four-field pattern with parsable versions, the header line is hoisted into
`Result.header` and `Result.stdout` retains exactly the rows with
current strictly below wanted under `StrictVersion` comparison, in their
original order (a row with current equal to wanted is dropped, since
`svLT` is irreflexive on its parsed versions). -/
theorem C8_nodejs_filter (outT errT : String) (s : Int) (hdr : String)
    (rows : List String)
    (hsplit : stripSplitlines outT = hdr :: rows) (hne : rows ≠ [])
    (hparse : ∀ row ∈ rows, (rowVersions row).isSome) :
    make_result "Node.js modules" outT errT s =
      some ⟨"Node.js modules", some hdr, ∅, s,
        (if s = 124 then stripSplitlines errT ++ [timeoutSentinel]
          else stripSplitlines errT),
        rows.filter rowOutdated⟩ := by
  obtain ⟨r2, rs, rfl⟩ := List.exists_cons_of_ne_nil hne
  simp [make_result, hsplit, processRows_eq_filter _ hparse]

/-- Witness for C8 at the spec's scenario: a header and two well-formed
rows, one genuinely outdated (current 1.0 below wanted 2.0) and one not
(current equals wanted at 2.0); only the first row survives, as the
separately evaluated filter shows. -/
theorem C8_nodejs_filter_witness :
    stripSplitlines "Package Current Wanted Latest\npkga 1.0 2.0 2.0\npkgb 2.0 2.0 2.0" =
      "Package Current Wanted Latest" :: ["pkga 1.0 2.0 2.0", "pkgb 2.0 2.0 2.0"] ∧
    (["pkga 1.0 2.0 2.0", "pkgb 2.0 2.0 2.0"] : List String) ≠ [] ∧
    (∀ row ∈ (["pkga 1.0 2.0 2.0", "pkgb 2.0 2.0 2.0"] : List String),
      (rowVersions row).isSome) ∧
    (["pkga 1.0 2.0 2.0", "pkgb 2.0 2.0 2.0"] : List String).filter rowOutdated =
      ["pkga 1.0 2.0 2.0"] ∧
    make_result "Node.js modules"
        "Package Current Wanted Latest\npkga 1.0 2.0 2.0\npkgb 2.0 2.0 2.0" "" 0 =
      some ⟨"Node.js modules", some "Package Current Wanted Latest", ∅, 0,
        (if (0 : Int) = 124 then stripSplitlines "" ++ [timeoutSentinel]
          else stripSplitlines ""),
        (["pkga 1.0 2.0 2.0", "pkgb 2.0 2.0 2.0"] : List String).filter rowOutdated⟩ :=
  ⟨by decide, by decide, by decide, by decide,
    C8_nodejs_filter
      "Package Current Wanted Latest\npkga 1.0 2.0 2.0\npkgb 2.0 2.0 2.0" "" 0
      "Package Current Wanted Latest" ["pkga 1.0 2.0 2.0", "pkgb 2.0 2.0 2.0"]
      (by decide) (by decide) (by decide)⟩

/-! Helper lemmas about the fingerprint canonicalization. -/

theorem insortPair_perm (p : String × HObj) (l : List (String × HObj)) :
    (insortPair p l).Perm (p :: l) := by
  induction l with
  | nil => exact List.Perm.refl _
  | cons q qs ih =>
    simp only [insortPair]
    split
    · exact List.Perm.refl _
    · exact (ih.cons q).trans (List.Perm.swap p q qs)

theorem sortPairs_perm (l : List (String × HObj)) : (sortPairs l).Perm l := by
  induction l with
  | nil => exact List.Perm.refl _
  | cons p ps ih => exact (insortPair_perm p (sortPairs ps)).trans (ih.cons p)

theorem insortPair_sorted (p : String × HObj) (l : List (String × HObj))
    (h : l.Pairwise (fun a b => a.1 ≤ b.1)) :
    (insortPair p l).Pairwise (fun a b => a.1 ≤ b.1) := by
  induction l with
  | nil => simp [insortPair]
  | cons q qs ih =>
    rcases List.pairwise_cons.mp h with ⟨hq, hqs⟩
    simp only [insortPair]
    split
    · rename_i hpq
      refine List.pairwise_cons.mpr ⟨?_, h⟩
      intro r hr
      rcases List.mem_cons.mp hr with rfl | hr2
      · exact hpq
      · exact le_trans hpq (hq r hr2)
    · rename_i hpq
      have hqp : q.1 ≤ p.1 := le_of_not_le hpq
      refine List.pairwise_cons.mpr ⟨?_, ih hqs⟩
      intro r hr
      rcases List.mem_cons.mp ((insortPair_perm p qs).mem_iff.mp hr) with rfl | hr2
      · exact hqp
      · exact hq r hr2

theorem sortPairs_sorted (l : List (String × HObj)) :
    (sortPairs l).Pairwise (fun a b => a.1 ≤ b.1) := by
  induction l with
  | nil => simp [sortPairs]
  | cons p ps ih => exact insortPair_sorted p (sortPairs ps) ih

/-- Two lists of pairs that are permutations of each other, both sorted by
key, with pairwise distinct keys, are equal: the sorted form of a dict's
items does not depend on insertion order. -/
theorem sorted_perm_nodup_eq : ∀ s1 s2 : List (String × HObj), s1.Perm s2 →
    s1.Pairwise (fun a b => a.1 ≤ b.1) → s2.Pairwise (fun a b => a.1 ≤ b.1) →
    (s1.map Prod.fst).Nodup → s1 = s2 := by
  intro s1
  induction s1 with
  | nil =>
    intro s2 hp _ _ _
    exact (hp.symm.eq_nil).symm
  | cons a t1 ih =>
    intro s2 hp hs1 hs2 hnd
    cases s2 with
    | nil => exact (List.cons_ne_nil a t1 hp.eq_nil).elim
    | cons b t2 =>
      by_cases hab : a = b
      · subst hab
        simp only [List.map_cons, List.nodup_cons] at hnd
        rw [ih t2 hp.cons_inv (List.pairwise_cons.mp hs1).2
          (List.pairwise_cons.mp hs2).2 hnd.2]
      · have hat2 : a ∈ t2 := by
          rcases List.mem_cons.mp (hp.subset (List.mem_cons_self a t1)) with h | h
          · exact absurd h hab
          · exact h
        have hbt1 : b ∈ t1 := by
          rcases List.mem_cons.mp (hp.symm.subset (List.mem_cons_self b t2)) with h | h
          · exact absurd h.symm hab
          · exact h
        have hk : a.1 = b.1 :=
          le_antisymm (List.rel_of_pairwise_cons hs1 hbt1)
            (List.rel_of_pairwise_cons hs2 hat2)
        simp only [List.map_cons, List.nodup_cons] at hnd
        exact absurd (hk ▸ List.mem_map_of_mem Prod.fst hbt1) hnd.1

theorem sortPairs_eq_of_perm (m1 m2 : List (String × HObj)) (hp : m1.Perm m2)
    (hnd : (m1.map Prod.fst).Nodup) : sortPairs m1 = sortPairs m2 :=
  sorted_perm_nodup_eq _ _
    ((sortPairs_perm m1).trans (hp.trans (sortPairs_perm m2).symm))
    (sortPairs_sorted m1) (sortPairs_sorted m2)
    (((sortPairs_perm m1).map Prod.fst).nodup_iff.mpr hnd)

theorem hashablize_list_eq (xs : List PyObj) :
    hashablize (.list xs) = .tup (xs.map hashablize) := by
  simp [hashablize]

theorem hashablize_dict_eq (es : List (String × PyObj)) :
    hashablize (.dict es) =
      .tup ((sortPairs (es.map (fun kv => (kv.1, hashablize kv.2)))).map
        (fun p => HObj.tup [.str p.1, p.2])) := by
  simp only [hashablize]
  rw [List.attach_map_coe es (fun kv => (kv.1, hashablize kv.2))]

theorem hashablize_str_map (ss : List String) :
    (ss.map PyObj.str).map hashablize = ss.map HObj.str := by
  induction ss with
  | nil => rfl
  | cons s t ih => simp [hashablize, ih]

/-- Claim C7: the fingerprint is a pure function of the canonical form (so
equal canonical forms always yield the same hex digest, and the digest is
stable across repeated calls); mappings holding the same key-value pairs in
different insertion order canonicalize — and hence hash — identically; and
the canonical form of a sequence is the ordered tuple of its elements'
canonical forms, so reordering a sequence of distinct elements changes the
canonical form (and therefore, absent hash collisions, the digest). -/
theorem C7_fingerprint :
    (∀ x y : PyObj, hashablize x = hashablize y → get_hash x = get_hash y) ∧
    (∀ l1 l2 : List (String × PyObj), l1.Perm l2 → (l1.map Prod.fst).Nodup →
      get_hash (.dict l1) = get_hash (.dict l2)) ∧
    (∀ xs ys : List PyObj, xs.map hashablize ≠ ys.map hashablize →
      hashablize (.list xs) ≠ hashablize (.list ys)) ∧
    (∀ ss1 ss2 : List String, ss1 ≠ ss2 →
      hashablize (.list (ss1.map PyObj.str)) ≠ hashablize (.list (ss2.map PyObj.str))) := by
  refine ⟨?_, ?_, ?_, ?_⟩
  · intro x y h
    unfold get_hash
    rw [h]
  · intro l1 l2 hp hnd
    unfold get_hash
    rw [hashablize_dict_eq, hashablize_dict_eq]
    have hcomp : ((l1.map (fun kv => (kv.1, hashablize kv.2))).map Prod.fst) =
        l1.map Prod.fst := by
      simp [List.map_map, Function.comp_def]
    rw [sortPairs_eq_of_perm _ _ (hp.map _) (hcomp ▸ hnd)]
  · intro xs ys hne h
    rw [hashablize_list_eq, hashablize_list_eq] at h
    exact hne (HObj.tup.inj h)
  · intro ss1 ss2 hne h
    rw [hashablize_list_eq, hashablize_list_eq] at h
    have h2 := HObj.tup.inj h
    rw [hashablize_str_map, hashablize_str_map] at h2
    exact hne (List.map_injective_iff.mpr (fun a b hab => HObj.str.inj hab) h2)

/-- Witness for C7: a dict written in two insertion orders hashes equally,
and swapping two distinct strings in a list changes the canonical form. -/
theorem C7_fingerprint_witness :
    get_hash (.int 1) = get_hash (.int 1) ∧
    (([("a", PyObj.str "x"), ("b", PyObj.str "y")] :
        List (String × PyObj)).map Prod.fst).Nodup ∧
    get_hash (.dict [("a", PyObj.str "x"), ("b", PyObj.str "y")]) =
      get_hash (.dict [("b", PyObj.str "y"), ("a", PyObj.str "x")]) ∧
    ([PyObj.int 1, PyObj.int 2].map hashablize ≠ [PyObj.int 2, PyObj.int 1].map hashablize) ∧
    hashablize (.list [PyObj.int 1, PyObj.int 2]) ≠ hashablize (.list [PyObj.int 2, PyObj.int 1]) ∧
    (["u", "v"] : List String) ≠ ["v", "u"] ∧
    hashablize (.list (["u", "v"].map PyObj.str)) ≠
      hashablize (.list (["v", "u"].map PyObj.str)) :=
  ⟨C7_fingerprint.1 _ _ rfl,
   by decide,
   C7_fingerprint.2.1 _ _ (List.Perm.swap _ _ _) (by decide),
   by simp [hashablize],
   C7_fingerprint.2.2.1 _ _ (by simp [hashablize]),
   by decide,
   C7_fingerprint.2.2.2 _ _ (by decide)⟩

end Updatewatch
